import Mathlib

/-!
Verification of the trade-management command pattern (undo/redo history)
from `src/command/modern/main.cpp` and `src/c/command.c`.

Modelling choices:
* The C++ `double` fields (`cash_`, `price`) are modelled by exact rational
  arithmetic (`ℚ`): every concrete price in the repository's fixed scripts
  (185.50, 140.25, 420.00, 190.00, 175.00, 890.50) is exactly representable
  in binary floating point and the scripted computations stay exact, so the
  rational model coincides with the double computations on the scripted runs.
* The C++ `std::unordered_map<std::string, int> positions_` is modelled
  extensionally as a total function `String → Int` with unset symbols at 0,
  which is exactly the lookup semantics of `operator[]` with `int` values.
* `std::printf`/`std::puts` console output is elided; `print_history`'s
  per-entry lines (the spec's `list()`) are modelled as a pure list of
  strings.
* C++ vectors `executed_`/`undone_` hold the most recent element at the
  back; we model them as Lean lists with the most recent element at the
  HEAD, so the vector in insertion order is `List.reverse` of our list.
-/

/-- The receiver from `src/command/modern/main.cpp` (`class Portfolio`):
per-symbol position quantities (`positions_`, unset symbols read as 0) and a
cash balance (`cash_`, modelled as `ℚ`). -/
@[ext] structure Portfolio where
  positions : String → Int
  cash : ℚ

/-- Models `Portfolio::buy`: `positions_[symbol] += qty; cash_ -= qty * price;`. -/
def Portfolio.buy (p : Portfolio) (symbol : String) (qty : Int) (price : ℚ) : Portfolio :=
  { positions := fun s => if s = symbol then p.positions s + qty else p.positions s
    cash := p.cash - qty * price }

/-- Models `Portfolio::sell`: `positions_[symbol] -= qty; cash_ += qty * price;`. -/
def Portfolio.sell (p : Portfolio) (symbol : String) (qty : Int) (price : ℚ) : Portfolio :=
  { positions := fun s => if s = symbol then p.positions s - qty else p.positions s
    cash := p.cash + qty * price }

/-- Models `Portfolio::reverse_buy`: `positions_[symbol] -= qty; cash_ += qty * price;`. -/
def Portfolio.reverse_buy (p : Portfolio) (symbol : String) (qty : Int) (price : ℚ) : Portfolio :=
  { positions := fun s => if s = symbol then p.positions s - qty else p.positions s
    cash := p.cash + qty * price }

/-- Models `Portfolio::reverse_sell`: `positions_[symbol] += qty; cash_ -= qty * price;`. -/
def Portfolio.reverse_sell (p : Portfolio) (symbol : String) (qty : Int) (price : ℚ) : Portfolio :=
  { positions := fun s => if s = symbol then p.positions s + qty else p.positions s
    cash := p.cash - qty * price }

/-- Models `using TradeAction = std::variant<BuyTrade, SellTrade>;` with the fields
`symbol`, `quantity` (`int`) and `price` (`double`, modelled as `ℚ`) of
`BuyTrade` / `SellTrade`. -/
inductive TradeAction where
  | buy (symbol : String) (quantity : Int) (price : ℚ)
  | sell (symbol : String) (quantity : Int) (price : ℚ)
deriving DecidableEq

/-- Models `void execute_action(const TradeAction&, Portfolio&)`: `std::visit`
dispatch to `Portfolio::buy` / `Portfolio::sell`. -/
def execute_action (a : TradeAction) (p : Portfolio) : Portfolio :=
  match a with
  | .buy symbol qty price => p.buy symbol qty price
  | .sell symbol qty price => p.sell symbol qty price

/-- Models `void undo_action(const TradeAction&, Portfolio&)`: `std::visit` dispatch
to `Portfolio::reverse_buy` / `Portfolio::reverse_sell`. -/
def undo_action (a : TradeAction) (p : Portfolio) : Portfolio :=
  match a with
  | .buy symbol qty price => p.reverse_buy symbol qty price
  | .sell symbol qty price => p.reverse_sell symbol qty price

/-- Renders a nonnegative amount of cents `n` as a decimal string with
exactly two fractional digits, as `%.2f` does for the exactly representable
prices used throughout the repository. -/
def centsStr (n : Nat) : String :=
  toString (n / 100) ++ "." ++ (if n % 100 < 10 then "0" ++ toString (n % 100) else toString (n % 100))

/-- Formatting of a price as `%.2f` does, modelled on exact rationals: round to the
nearest cent and print with two decimals. -/
def priceStr (q : ℚ) : String :=
  if round (q * 100) < 0 then "-" ++ centsStr (round (q * 100)).natAbs
  else centsStr (round (q * 100)).natAbs

/-- Models `BuyTrade::description` / `SellTrade::description`
(`"BUY %d %s @ $%.2f"` resp. `"SELL %d %s @ $%.2f"`), dispatched as in
`action_description`. -/
def action_description (a : TradeAction) : String :=
  match a with
  | .buy symbol qty price => "BUY " ++ toString qty ++ " " ++ symbol ++ " @ $" ++ priceStr price
  | .sell symbol qty price => "SELL " ++ toString qty ++ " " ++ symbol ++ " @ $" ++ priceStr price

/-- Models `class TradeHistory`: `std::vector<TradeAction> executed_, undone_;`.
Most recent element of each vector (`back()`) is the HEAD of the list here,
so the vector in insertion order is `executed_.reverse`. -/
structure TradeHistory where
  executed_ : List TradeAction
  undone_ : List TradeAction
deriving DecidableEq

/-- Models `TradeHistory::execute`: apply the action to the portfolio, push it on
`executed_`, clear `undone_` (the redo stack). Returns the updated history
and portfolio (the C++ code mutates them in place). -/
def TradeHistory.execute (h : TradeHistory) (a : TradeAction) (p : Portfolio) :
    TradeHistory × Portfolio :=
  ({ executed_ := a :: h.executed_, undone_ := [] }, execute_action a p)

/-- Models `TradeHistory::undo`: returns `false` leaving everything unchanged when
`executed_` is empty; otherwise pops the most recent action, reverses it on
the portfolio, pushes it on `undone_` and returns `true`. -/
def TradeHistory.undo (h : TradeHistory) (p : Portfolio) :
    Bool × TradeHistory × Portfolio :=
  match h.executed_ with
  | [] => (false, h, p)
  | a :: rest => (true, { executed_ := rest, undone_ := a :: h.undone_ }, undo_action a p)

/-- Models `TradeHistory::redo`: returns `false` leaving everything unchanged when
`undone_` is empty; otherwise pops the most recent undone action, re-applies
it to the portfolio, pushes it back on `executed_` and returns `true`. -/
def TradeHistory.redo (h : TradeHistory) (p : Portfolio) :
    Bool × TradeHistory × Portfolio :=
  match h.undone_ with
  | [] => (false, h, p)
  | a :: rest => (true, { executed_ := a :: h.executed_, undone_ := rest }, execute_action a p)

/-- The numbered lines produced by the loop in `TradeHistory::print_history`
(`"%zu. %s"` with index `i + 1`), starting at number `i`. -/
def numberedFrom (i : Nat) : List TradeAction → List String
  | [] => []
  | a :: rest => (toString i ++ ". " ++ action_description a) :: numberedFrom (i + 1) rest

/-- The spec's `list()`: the per-entry lines of `TradeHistory::print_history`,
i.e. index-1-based descriptions of `executed_` in insertion order. Pure. -/
def TradeHistory.listing (h : TradeHistory) : List String :=
  numberedFrom 1 h.executed_.reverse

/-- Models `TradeHistory::size`. -/
def TradeHistory.size (h : TradeHistory) : Nat :=
  h.executed_.length

/-- The undo stack in the spec's order (insertion order, most recent last). -/
def undoStackList (h : TradeHistory) : List TradeAction :=
  h.executed_.reverse

/-- The redo stack in the spec's order (most recent last). -/
def redoStackList (h : TradeHistory) : List TradeAction :=
  h.undone_.reverse

/-- The full timeline a history represents: the undo stack (insertion order)
followed by the reverse of the redo stack. -/
def timeline (h : TradeHistory) : List TradeAction :=
  undoStackList h ++ (redoStackList h).reverse

/-- One caller-visible operation on a `TradeHistory` (the three mutators of
the class). -/
inductive HistOp where
  | exec (a : TradeAction)
  | undo
  | redo

/-- Run one `HistOp` on a history/portfolio pair. -/
def histStep (s : TradeHistory × Portfolio) (op : HistOp) : TradeHistory × Portfolio :=
  match op with
  | .exec a => s.1.execute a s.2
  | .undo => ((s.1.undo s.2).2.1, (s.1.undo s.2).2.2)
  | .redo => ((s.1.redo s.2).2.1, (s.1.redo s.2).2.2)

/-- Run a sequence of operations from a starting state. -/
def histRun (s : TradeHistory × Portfolio) (ops : List HistOp) : TradeHistory × Portfolio :=
  ops.foldl histStep s

/-- Replay a list of actions (in order) on a portfolio with `execute_action`. -/
def replay (p : Portfolio) : List TradeAction → Portfolio
  | [] => p
  | a :: rest => replay (execute_action a p) rest

/-- The freshly constructed history (`TradeHistory history;`). -/
def emptyHistory : TradeHistory := { executed_ := [], undone_ := [] }

/-- The snapshot taken in `main` (`auto snapshot = history;`): a value copy
of the whole history (C++ vector copy duplicates both stacks). -/
def snapshot (h : TradeHistory) : TradeHistory := h

/-- Whether `needle` is a prefix of `hay`. -/
def hasPrefixChars : List Char → List Char → Bool
  | [], _ => true
  | _ :: _, [] => false
  | a :: as, b :: bs => decide (a = b) && hasPrefixChars as bs

/-- Whether `needle` occurs contiguously inside `hay`. -/
def containsSub (needle : List Char) (hay : List Char) : Bool :=
  match hay with
  | [] => hasPrefixChars needle []
  | _ :: rest => hasPrefixChars needle hay || containsSub needle rest

/-- The description of action `a` occurs (as a contiguous substring of some
entry) in the listing of history `h`. -/
def descrInListing (a : TradeAction) (h : TradeHistory) : Prop :=
  ∃ e ∈ h.listing, containsSub (action_description a).data e.data = true

/-- The initial portfolio of the scripted scenario:
`Portfolio portfolio(1000000.0);` with no positions. -/
def initialPortfolio : Portfolio := { positions := fun _ => 0, cash := 1000000 }

/-- The spec's concrete scenario: three executes, two undos, one redo. -/
def scenOps : List HistOp :=
  [ .exec (.buy "AAPL" 100 (185.50 : ℚ)), .exec (.buy "GOOGL" 50 (140.25 : ℚ)),
    .exec (.sell "MSFT" 75 (420 : ℚ)), .undo, .undo, .redo ]

/-- The history/portfolio state at the end of the concrete scenario. -/
def scenarioState : TradeHistory × Portfolio :=
  histRun (emptyHistory, initialPortfolio) scenOps

-- ============================================================
-- The C implementation (`src/c/command.c`), Approach 1.
-- ============================================================

/-- Models `TradeCommandType` (`CMD_BUY` / `CMD_SELL`). -/
inductive TradeCommandType where
  | buy
  | sell
deriving DecidableEq

/-- Models the C `TradeCommand`: tag, symbol (a `char[16]`, so at most 15 characters after
the `strncpy` truncation in `cmd_buy`/`cmd_sell`), quantity, price. -/
structure TradeCommand where
  type : TradeCommandType
  symbol : String
  quantity : Int
  price : ℚ
deriving DecidableEq

/-- Models `cmd_buy`: build a `CMD_BUY` command, truncating the symbol to 15 chars. -/
def cmd_buy (symbol : String) (qty : Int) (price : ℚ) : TradeCommand :=
  { type := .buy, symbol := (symbol.toList.take 15).asString, quantity := qty, price := price }

/-- Models `cmd_sell`: build a `CMD_SELL` command, truncating the symbol to 15 chars. -/
def cmd_sell (symbol : String) (qty : Int) (price : ℚ) : TradeCommand :=
  { type := .sell, symbol := (symbol.toList.take 15).asString, quantity := qty, price := price }

/-- The C `Portfolio`: a fixed array of at most `MAX_POSITIONS` (32) symbol
slots with quantities, in first-use order, plus cash. The `entries` list
models `symbols[0..count)` paired with `quantities[0..count)`. -/
structure CPortfolio where
  entries : List (String × Int)
  cash : ℚ
deriving DecidableEq

/-- Models `portfolio_init`. -/
def portfolio_init (cash : ℚ) : CPortfolio := { entries := [], cash := cash }

/-- The update `p->quantities[idx] += qty_delta` at the slot found by
`portfolio_find` (first entry with the given symbol); `none` when the symbol
is not present. -/
def bumpEntry (symbol : String) (qd : Int) : List (String × Int) → Option (List (String × Int))
  | [] => none
  | e :: rest =>
    if e.1 = symbol then some ((e.1, e.2 + qd) :: rest)
    else
      match bumpEntry symbol qd rest with
      | some rest' => some (e :: rest')
      | none => none

/-- Models `portfolio_adjust`: find the symbol's slot (or claim the next free slot,
truncating the symbol to 15 chars), add `qd` to its quantity and `cd` to
cash. `none` models the unchecked write at `p->count` when all
`MAX_POSITIONS` (32) slots are taken (the C code performs no bounds check
there; writing slot 32 indexes past the arrays). -/
def portfolio_adjust (p : CPortfolio) (symbol : String) (qd : Int) (cd : ℚ) :
    Option CPortfolio :=
  match bumpEntry symbol qd p.entries with
  | some es => some { entries := es, cash := p.cash + cd }
  | none =>
    if p.entries.length < 32 then
      some { entries := p.entries ++ [((symbol.toList.take 15).asString, qd)], cash := p.cash + cd }
    else none

/-- Models `portfolio_buy`. -/
def portfolio_buy (p : CPortfolio) (symbol : String) (qty : Int) (price : ℚ) :
    Option CPortfolio :=
  portfolio_adjust p symbol qty (-(qty * price))

/-- Models `portfolio_sell`. -/
def portfolio_sell (p : CPortfolio) (symbol : String) (qty : Int) (price : ℚ) :
    Option CPortfolio :=
  portfolio_adjust p symbol (-qty) (qty * price)

/-- Models `portfolio_reverse_buy`. -/
def portfolio_reverse_buy (p : CPortfolio) (symbol : String) (qty : Int) (price : ℚ) :
    Option CPortfolio :=
  portfolio_adjust p symbol (-qty) (qty * price)

/-- Models `portfolio_reverse_sell`. -/
def portfolio_reverse_sell (p : CPortfolio) (symbol : String) (qty : Int) (price : ℚ) :
    Option CPortfolio :=
  portfolio_adjust p symbol qty (-(qty * price))

/-- Models `cmd_execute`: switch on the tag. -/
def cmd_execute (cmd : TradeCommand) (p : CPortfolio) : Option CPortfolio :=
  match cmd.type with
  | .buy => portfolio_buy p cmd.symbol cmd.quantity cmd.price
  | .sell => portfolio_sell p cmd.symbol cmd.quantity cmd.price

/-- Models `cmd_undo`: switch on the tag. -/
def cmd_undo (cmd : TradeCommand) (p : CPortfolio) : Option CPortfolio :=
  match cmd.type with
  | .buy => portfolio_reverse_buy p cmd.symbol cmd.quantity cmd.price
  | .sell => portfolio_reverse_sell p cmd.symbol cmd.quantity cmd.price

/-- The C `TradeHistory`: two fixed arrays `executed[MAX_HISTORY]` and
`undone[MAX_HISTORY]` (`MAX_HISTORY` = 64) with counts. The lists model
`executed[0..exec_count)` / `undone[0..undo_count)` with the most recent
element at the HEAD (array order is the reverse). -/
structure CTradeHistory where
  executed : List TradeCommand
  undone : List TradeCommand
deriving DecidableEq

/-- Models `history_init`. -/
def history_init : CTradeHistory := { executed := [], undone := [] }

/-- Models `history_execute`: `cmd_execute`, then `h->executed[h->exec_count++] = cmd`
and `h->undo_count = 0`. The C code performs NO bounds check on that write;
`none` models the out-of-bounds store when `exec_count` is already
`MAX_HISTORY` (64) — i.e. recording a 65th action indexes past `executed`
(or, through `cmd_execute`, past the portfolio's position arrays). -/
def history_execute (h : CTradeHistory) (cmd : TradeCommand) (p : CPortfolio) :
    Option (CTradeHistory × CPortfolio) :=
  match cmd_execute cmd p with
  | none => none
  | some p' =>
    if h.executed.length < 64 then
      some ({ executed := cmd :: h.executed, undone := [] }, p')
    else none

/-- Models `history_undo`: returns `0` (false) when `exec_count == 0`; otherwise pops
`executed`, runs `cmd_undo`, and does `h->undone[h->undo_count++] = cmd` with
NO bounds check; `none` models that store when `undo_count` is already 64. -/
def history_undo (h : CTradeHistory) (p : CPortfolio) :
    Option (Bool × CTradeHistory × CPortfolio) :=
  match h.executed with
  | [] => some (false, h, p)
  | cmd :: rest =>
    match cmd_undo cmd p with
    | none => none
    | some p' =>
      if h.undone.length < 64 then
        some (true, { executed := rest, undone := cmd :: h.undone }, p')
      else none

/-- Models `history_redo`: returns `0` (false) when `undo_count == 0`; otherwise pops
`undone`, runs `cmd_execute`, and does `h->executed[h->exec_count++] = cmd`
with NO bounds check; `none` models that store when `exec_count` is 64. -/
def history_redo (h : CTradeHistory) (p : CPortfolio) :
    Option (Bool × CTradeHistory × CPortfolio) :=
  match h.undone with
  | [] => some (false, h, p)
  | cmd :: rest =>
    match cmd_execute cmd p with
    | none => none
    | some p' =>
      if h.executed.length < 64 then
        some (true, { executed := cmd :: h.executed, undone := rest }, p')
      else none

-- Basic algebraic lemmas about the action/inverse pair.

theorem undo_execute_action (a : TradeAction) (p : Portfolio) :
    undo_action a (execute_action a p) = p := by
  cases a with
  | buy symbol qty price =>
      ext s
      · simp only [execute_action, undo_action, Portfolio.buy, Portfolio.reverse_buy]
        split <;> ring
      · simp only [execute_action, undo_action, Portfolio.buy, Portfolio.reverse_buy]
        ring
  | sell symbol qty price =>
      ext s
      · simp only [execute_action, undo_action, Portfolio.sell, Portfolio.reverse_sell]
        split <;> ring
      · simp only [execute_action, undo_action, Portfolio.sell, Portfolio.reverse_sell]
        ring

theorem execute_undo_action (a : TradeAction) (p : Portfolio) :
    execute_action a (undo_action a p) = p := by
  cases a with
  | buy symbol qty price =>
      ext s
      · simp only [execute_action, undo_action, Portfolio.buy, Portfolio.reverse_buy]
        split <;> ring
      · simp only [execute_action, undo_action, Portfolio.buy, Portfolio.reverse_buy]
        ring
  | sell symbol qty price =>
      ext s
      · simp only [execute_action, undo_action, Portfolio.sell, Portfolio.reverse_sell]
        split <;> ring
      · simp only [execute_action, undo_action, Portfolio.sell, Portfolio.reverse_sell]
        ring

-- Helper lemmas

theorem numberedFrom_length (i : Nat) (l : List TradeAction) :
    (numberedFrom i l).length = l.length := by
  induction l generalizing i with
  | nil => rfl
  | cons a rest ih => simp [numberedFrom, ih]

theorem numberedFrom_append (l1 l2 : List TradeAction) (i : Nat) :
    numberedFrom i (l1 ++ l2) = numberedFrom i l1 ++ numberedFrom (i + l1.length) l2 := by
  induction l1 generalizing i with
  | nil => simp [numberedFrom]
  | cons a rest ih =>
      simp only [List.cons_append, numberedFrom, List.length_cons, List.append_eq]
      rw [ih]
      have : i + 1 + rest.length = i + (rest.length + 1) := by omega
      rw [this]

theorem numberedFrom_get (l : List TradeAction) (i k : Nat) :
    (numberedFrom k l).get? i =
      (l.get? i).map (fun a => toString (k + i) ++ ". " ++ action_description a) := by
  induction l generalizing i k with
  | nil => simp [numberedFrom]
  | cons a rest ih =>
      cases i with
      | zero => simp [numberedFrom]
      | succ j =>
          simp only [numberedFrom, List.get?_cons_succ, ih]
          have : k + 1 + j = k + (j + 1) := by omega
          rw [this]

theorem listing_execute (h : TradeHistory) (a : TradeAction) (p : Portfolio) :
    ((h.execute a p).1).listing =
      h.listing ++ [toString (h.executed_.length + 1) ++ ". " ++ action_description a] := by
  simp only [TradeHistory.execute, TradeHistory.listing, List.reverse_cons,
    numberedFrom_append, List.length_reverse]
  rw [Nat.add_comm 1 h.executed_.length]
  rfl

theorem replay_append (l1 l2 : List TradeAction) (p : Portfolio) :
    replay p (l1 ++ l2) = replay (replay p l1) l2 := by
  induction l1 generalizing p with
  | nil => rfl
  | cons a rest ih => simp [replay, ih]

theorem histStep_replay (p0 : Portfolio) (s : TradeHistory × Portfolio) (op : HistOp)
    (hs : replay p0 s.1.executed_.reverse = s.2) :
    replay p0 (histStep s op).1.executed_.reverse = (histStep s op).2 := by
  cases op with
  | exec a =>
      simp only [histStep, TradeHistory.execute, List.reverse_cons, replay_append, hs]
      rfl
  | undo =>
      rcases s with ⟨h, p⟩
      cases hex : h.executed_ with
      | nil => simpa [histStep, TradeHistory.undo, hex] using hs
      | cons a rest =>
          simp only [histStep, TradeHistory.undo, hex]
          have := hs
          rw [hex] at this
          simp only [List.reverse_cons, replay_append] at this
          have hrest : replay p0 rest.reverse = undo_action a p := by
            rw [← this]
            simp [replay, undo_execute_action]
          simpa using hrest
  | redo =>
      rcases s with ⟨h, p⟩
      cases hun : h.undone_ with
      | nil => simpa [histStep, TradeHistory.redo, hun] using hs
      | cons a rest =>
          simp only [histStep, TradeHistory.redo, hun, List.reverse_cons, replay_append, hs]
          rfl

theorem histRun_replay (p0 : Portfolio) (ops : List HistOp) (s : TradeHistory × Portfolio)
    (hs : replay p0 s.1.executed_.reverse = s.2) :
    replay p0 (histRun s ops).1.executed_.reverse = (histRun s ops).2 := by
  induction ops generalizing s with
  | nil => simpa [histRun] using hs
  | cons op rest ih =>
      have h1 := histStep_replay p0 s op hs
      simpa [histRun, List.foldl_cons] using ih (histStep s op) h1

/-- C1: for every action A and every Portfolio state S, `execute(A)` followed
by `undo()` restores the Portfolio exactly: the cash balance and the quantity
of every symbol equal their values in S. -/
theorem claim_C1 (h : TradeHistory) (a : TradeAction) (p : Portfolio) :
    (((h.execute a p).1.undo (h.execute a p).2).2.2).cash = p.cash ∧
    ∀ s, (((h.execute a p).1.undo (h.execute a p).2).2.2).positions s = p.positions s := by
  have hp : ((h.execute a p).1.undo (h.execute a p).2).2.2 = p := by
    simp [TradeHistory.execute, TradeHistory.undo, undo_execute_action]
  rw [hp]
  exact ⟨rfl, fun _ => rfl⟩

/-- C2: immediately after any `execute` the redo stack is empty; and after
`execute(A); undo(); execute(B)` a subsequent `redo()` returns `false`
leaving history and portfolio unchanged, so the undone A is unreachable. -/
theorem claim_C2 :
    (∀ (h : TradeHistory) (a : TradeAction) (p : Portfolio),
      ((h.execute a p).1).undone_ = []) ∧
    (∀ (h : TradeHistory) (a b : TradeAction) (p : Portfolio),
      let s1 := h.execute a p
      let s2 := s1.1.undo s1.2
      let s3 := s2.2.1.execute b s2.2.2
      s3.1.redo s3.2 = (false, s3.1, s3.2)) :=
  ⟨fun _ _ _ => rfl, fun _ _ _ _ => rfl⟩

/-- C3: in every state reachable from an empty history and an initial
Portfolio by execute/undo/redo calls, replaying the undo stack in order from
the initial Portfolio yields exactly the current Portfolio. -/
theorem claim_C3 (ops : List HistOp) (p0 : Portfolio) :
    replay p0 (undoStackList (histRun (emptyHistory, p0) ops).1) =
      (histRun (emptyHistory, p0) ops).2 := by
  have hr := histRun_replay p0 ops (emptyHistory, p0) rfl
  simpa [undoStackList] using hr

/-- C4: `execute(A); undo(); redo()` returns `true` and yields exactly the
history and Portfolio from immediately after the original `execute(A)`; on a
non-empty redo stack, `redo` pops its last action, applies its forward
effect, pushes it back on the undo stack and returns `true`. -/
theorem claim_C4 :
    (∀ (h : TradeHistory) (a : TradeAction) (p : Portfolio),
      let s1 := h.execute a p
      let s2 := s1.1.undo s1.2
      s2.2.1.redo s2.2.2 = (true, s1.1, s1.2)) ∧
    (∀ (ex un : List TradeAction) (a : TradeAction) (p : Portfolio),
      TradeHistory.redo ⟨ex, a :: un⟩ p = (true, ⟨a :: ex, un⟩, execute_action a p)) := by
  constructor
  · intro h a p
    simp [TradeHistory.execute, TradeHistory.undo, TradeHistory.redo, execute_undo_action]
  · intro ex un a p
    rfl

/-- C5: `undo` on an empty undo stack and `redo` on an empty redo stack
return `false` and change nothing; in particular both are no-ops returning
`false` on a freshly constructed history. -/
theorem claim_C5 :
    (∀ (un : List TradeAction) (p : Portfolio),
      TradeHistory.undo ⟨[], un⟩ p = (false, ⟨[], un⟩, p)) ∧
    (∀ (ex : List TradeAction) (p : Portfolio),
      TradeHistory.redo ⟨ex, []⟩ p = (false, ⟨ex, []⟩, p)) ∧
    (∀ p : Portfolio,
      TradeHistory.undo emptyHistory p = (false, emptyHistory, p) ∧
      TradeHistory.redo emptyHistory p = (false, emptyHistory, p)) :=
  ⟨fun _ _ => rfl, fun _ _ => rfl, fun _ => ⟨rfl, rfl⟩⟩

/-- C9: a successful `undo` or `redo` preserves, as a sequence, the undo
stack (insertion order) followed by the reverse of the redo stack; `execute`
is the only operation that changes which actions the history holds — it
appends the new action to the undo stack and discards the redo stack. -/
theorem claim_C9 :
    (∀ (a : TradeAction) (rest un : List TradeAction) (p : Portfolio),
      (TradeHistory.undo ⟨a :: rest, un⟩ p).1 = true ∧
      timeline (TradeHistory.undo ⟨a :: rest, un⟩ p).2.1 = timeline ⟨a :: rest, un⟩) ∧
    (∀ (a : TradeAction) (ex un : List TradeAction) (p : Portfolio),
      (TradeHistory.redo ⟨ex, a :: un⟩ p).1 = true ∧
      timeline (TradeHistory.redo ⟨ex, a :: un⟩ p).2.1 = timeline ⟨ex, a :: un⟩) ∧
    (∀ (h : TradeHistory) (a : TradeAction) (p : Portfolio),
      timeline ((h.execute a p).1) = undoStackList h ++ [a]) := by
  refine ⟨?_, ?_, ?_⟩
  · intro a rest un p
    refine ⟨rfl, ?_⟩
    simp [TradeHistory.undo, timeline, undoStackList, redoStackList]
  · intro a ex un p
    refine ⟨rfl, ?_⟩
    simp [TradeHistory.redo, timeline, undoStackList, redoStackList]
  · intro h a p
    simp [TradeHistory.execute, timeline, undoStackList, redoStackList]

-- Concrete formatting lemmas (the scripted prices are exactly representable).

theorem priceStr_185_50 : priceStr (185.50 : ℚ) = "185.50" := by
  have h : round ((185.50 : ℚ) * 100) = 18550 := by norm_num [round_eq]
  unfold priceStr
  rw [h]
  decide

theorem priceStr_140_25 : priceStr (140.25 : ℚ) = "140.25" := by
  have h : round ((140.25 : ℚ) * 100) = 14025 := by norm_num [round_eq]
  unfold priceStr
  rw [h]
  decide

theorem descr_buyAAPL :
    action_description (TradeAction.buy "AAPL" 100 (185.50 : ℚ)) = "BUY 100 AAPL @ $185.50" := by
  simp only [action_description, priceStr_185_50]
  decide

theorem descr_buyGOOGL :
    action_description (TradeAction.buy "GOOGL" 50 (140.25 : ℚ)) = "BUY 50 GOOGL @ $140.25" := by
  simp only [action_description, priceStr_140_25]
  decide

theorem scenario_hist :
    scenarioState.1 =
      ⟨[TradeAction.buy "GOOGL" 50 (140.25 : ℚ), TradeAction.buy "AAPL" 100 (185.50 : ℚ)],
        [TradeAction.sell "MSFT" 75 (420 : ℚ)]⟩ :=
  rfl

theorem scenario_listing :
    scenarioState.1.listing = ["1. BUY 100 AAPL @ $185.50", "2. BUY 50 GOOGL @ $140.25"] := by
  rw [scenario_hist]
  show numberedFrom 1
      [TradeAction.buy "AAPL" 100 (185.50 : ℚ), TradeAction.buy "GOOGL" 50 (140.25 : ℚ)] = _
  simp only [numberedFrom, descr_buyAAPL, descr_buyGOOGL]
  decide

/-- C7: `list()` is the index-1-based descriptions of the undo stack in
insertion order (entry `i` is `toString (i+1) ++ ". " ++` the description of
the `i`-th oldest retained action), with as many entries as retained actions,
and in the spec's concrete scenario (three executes, two undos, one redo from
cash 1,000,000.00) it returns exactly the two given strings. -/
theorem claim_C7 :
    (∀ (h : TradeHistory) (i : Nat),
      h.listing.get? i =
        ((undoStackList h).get? i).map
          (fun a => toString (i + 1) ++ ". " ++ action_description a)) ∧
    (∀ h : TradeHistory, h.listing.length = h.executed_.length) ∧
    scenarioState.1.listing = ["1. BUY 100 AAPL @ $185.50", "2. BUY 50 GOOGL @ $140.25"] := by
  refine ⟨?_, ?_, scenario_listing⟩
  · intro h i
    have hg := numberedFrom_get h.executed_.reverse i 1
    simpa [TradeHistory.listing, undoStackList, Nat.add_comm] using hg
  · intro h
    simp [TradeHistory.listing, numberedFrom_length]

/-- C8: applying a Buy adds its quantity to the symbol's position and
subtracts quantity*price from cash; a Sell does the opposite signs.
Concretely, Buy{AAPL,100,185.50} on Portfolio{cash 1,000,000, no positions}
yields cash 981,450.00 and AAPL position 100, unset symbols read as 0, and a
Sell may drive a position negative. -/
theorem claim_C8 :
    (∀ (p : Portfolio) (sym : String) (q : Int) (pr : ℚ),
      (execute_action (.buy sym q pr) p).positions sym = p.positions sym + q ∧
      (execute_action (.buy sym q pr) p).cash = p.cash - q * pr ∧
      (execute_action (.sell sym q pr) p).positions sym = p.positions sym - q ∧
      (execute_action (.sell sym q pr) p).cash = p.cash + q * pr) ∧
    (execute_action (.buy "AAPL" 100 (185.50 : ℚ)) initialPortfolio).cash = 981450 ∧
    (execute_action (.buy "AAPL" 100 (185.50 : ℚ)) initialPortfolio).positions "AAPL" = 100 ∧
    (execute_action (.buy "AAPL" 100 (185.50 : ℚ)) initialPortfolio).positions "GOOGL" = 0 ∧
    (execute_action (.sell "MSFT" 75 (420 : ℚ)) initialPortfolio).positions "MSFT" = -75 := by
  refine ⟨?_, ?_, ?_, ?_, ?_⟩
  · intro p sym q pr
    refine ⟨?_, rfl, ?_, rfl⟩ <;> simp [execute_action, Portfolio.buy, Portfolio.sell]
  · show (1000000 : ℚ) - (100 : ℤ) * (185.50 : ℚ) = 981450
    push_cast
    norm_num
  · show (if "AAPL" = "AAPL" then (0 : ℤ) + 100 else 0) = 100
    decide
  · show (if "GOOGL" = "AAPL" then (0 : ℤ) + 100 else 0) = 0
    decide
  · show (if "MSFT" = "MSFT" then (0 : ℤ) - 75 else 0) = -75
    decide

/-- The duplicate-action input refuting C6 as stated: the history already
holds an action equal to C before the snapshot. -/
def cexAction : TradeAction := .buy "AAPL" 100 (185.50 : ℚ)

/-- A one-entry history whose sole entry is `cexAction`. -/
def cexHistory : TradeHistory := ⟨[cexAction], []⟩

theorem cex_listing : cexHistory.listing = ["1. BUY 100 AAPL @ $185.50"] := by
  show numberedFrom 1 [cexAction] = _
  simp only [numberedFrom, cexAction, descr_buyAAPL]
  decide

/-- Refutes C6 as stated: take h1 = cexHistory (which already holds an action
equal to C = cexAction) and snapshot it; the snapshot's listing is indeed
unchanged by `h1.execute C`, yet it DOES contain C's description, contrary to
the claim's "does not contain C's description". -/
theorem claim_C6_counterexample :
    (snapshot cexHistory).listing = cexHistory.listing ∧
    descrInListing cexAction (snapshot cexHistory) := by
  refine ⟨rfl, ⟨"1. BUY 100 AAPL @ $185.50", ?_, ?_⟩⟩
  · show _ ∈ (snapshot cexHistory).listing
    rw [show (snapshot cexHistory).listing = cexHistory.listing from rfl, cex_listing]
    exact List.mem_singleton.mpr rfl
  · rw [show action_description cexAction = "BUY 100 AAPL @ $185.50" from descr_buyAAPL]
    decide

/-- C6 (amended): a snapshot is causally disconnected from the original —
its listing equals the pre-execute listing while the original's listing
gains C's numbered description — and the snapshot's listing does not contain
C's description PROVIDED it did not already contain it at snapshot time. -/
theorem claim_C6 (h1 : TradeHistory) (c : TradeAction) (p : Portfolio) :
    (snapshot h1).listing = h1.listing ∧
    ((h1.execute c p).1).listing =
      h1.listing ++ [toString (h1.executed_.length + 1) ++ ". " ++ action_description c] ∧
    (¬ descrInListing c h1 → ¬ descrInListing c (snapshot h1)) :=
  ⟨rfl, listing_execute h1 c p, fun hn => hn⟩

theorem claim_C6_witness :
    ¬ descrInListing cexAction emptyHistory ∧
    ¬ descrInListing cexAction (snapshot emptyHistory) := by
  have h := (claim_C6 emptyHistory cexAction initialPortfolio).2.2
  have hn : ¬ descrInListing cexAction emptyHistory := by
    unfold descrInListing
    decide
  exact ⟨hn, h hn⟩

/-- C10: the C history's two stacks have fixed capacity `MAX_HISTORY` (64)
and the stack stores in `history_execute` / `history_undo` / `history_redo`
are not bounds-checked: pushing onto a stack that already holds 64 actions
indexes past the array (modelled as `none`), and a successful
`history_execute` requires `exec_count < 64` beforehand. -/
theorem claim_C10 :
    (∀ (h : CTradeHistory) (cmd : TradeCommand) (p : CPortfolio),
      64 ≤ h.executed.length → history_execute h cmd p = none) ∧
    (∀ (h : CTradeHistory) (p : CPortfolio),
      h.executed ≠ [] → 64 ≤ h.undone.length → history_undo h p = none) ∧
    (∀ (h : CTradeHistory) (p : CPortfolio),
      h.undone ≠ [] → 64 ≤ h.executed.length → history_redo h p = none) ∧
    (∀ (h : CTradeHistory) (cmd : TradeCommand) (p : CPortfolio)
      (r : CTradeHistory × CPortfolio),
      history_execute h cmd p = some r → h.executed.length < 64) := by
  refine ⟨?_, ?_, ?_, ?_⟩
  · intro h cmd p hlen
    cases hc : cmd_execute cmd p with
    | none => simp [history_execute, hc]
    | some p' => simp [history_execute, hc, Nat.not_lt.mpr hlen]
  · intro h p hne hlen
    cases hex : h.executed with
    | nil => exact absurd hex hne
    | cons cmd rest =>
        cases hc : cmd_undo cmd p with
        | none => simp [history_undo, hex, hc]
        | some p' => simp [history_undo, hex, hc, Nat.not_lt.mpr hlen]
  · intro h p hne hlen
    cases hun : h.undone with
    | nil => exact absurd hun hne
    | cons cmd rest =>
        cases hc : cmd_execute cmd p with
        | none => simp [history_redo, hun, hc]
        | some p' => simp [history_redo, hun, hc, Nat.not_lt.mpr hlen]
  · intro h cmd p r hr
    by_cases hlt : h.executed.length < 64
    · exact hlt
    · exfalso
      cases hc : cmd_execute cmd p with
      | none => simp [history_execute, hc] at hr
      | some p' => simp [history_execute, hc, hlt] at hr

/-- A C history whose `executed` stack already holds 64 commands. -/
def fullCHistory : CTradeHistory := ⟨List.replicate 64 (cmd_buy "AAPL" 1 1), []⟩

theorem claim_C10_witness :
    64 ≤ fullCHistory.executed.length ∧
    history_execute fullCHistory (cmd_buy "AAPL" 1 1) (portfolio_init 0) = none :=
  ⟨by decide,
    claim_C10.1 fullCHistory (cmd_buy "AAPL" 1 1) (portfolio_init 0) (by decide)⟩
